import Mathlib

/-!
Shallow embedding of `src/thicket_db.py` (ThicketDB: a versioned on-disk JSON
database of Laubwerk plant models, plus its parallel build pipeline).

Python dicts are modelled as association lists in insertion order with the
usual first-match lookup; `d[k] = v` is `dictInsert` (replace in place or
append) and `d.update(n)` is `dictUpdate` (left fold of `dictInsert` over the
entries of `n`), which is exactly CPython's dict semantics.  JSON
serialization (`json.dump` / `json.load`) is modelled as the identity on
well-formed documents.
-/

def SCHEMA_VERSION : Int := 2

/-- Python dict lookup `d[k]` (first matching key of the association list). -/
def lookup {α : Type} : List (String × α) → String → Option α
  | [], _ => none
  | (k, v) :: rest, key => if k = key then some v else lookup rest key

/-- Python `k in d`. -/
def containsKey {α : Type} (l : List (String × α)) (key : String) : Bool :=
  (lookup l key).isSome

/-- Python `d[k] = v`: replace the value in place if the key exists, else append. -/
def dictInsert {α : Type} : List (String × α) → String → α → List (String × α)
  | [], key, v => [(key, v)]
  | (k, w) :: rest, key, v =>
    if k = key then (k, v) :: rest else (k, w) :: dictInsert rest key v

/-- Python `d.update(n)`: assign every entry of `n` into `d`, in order. -/
def dictUpdate {α : Type} (d n : List (String × α)) : List (String × α) :=
  n.foldl (fun acc p => dictInsert acc p.1 p.2) d

/-- Per-key table of translations: locale code → localized string. -/
abbrev LabelEntry := List (String × String)

/-- The database's `labels` table: label key → locale → localized string. -/
abbrev LabelStore := List (String × LabelEntry)

/-- Observation helper: the stored translation of `key` for `locale`, if any. -/
def localeOf (store : LabelStore) (key locale : String) : Option String :=
  match lookup store key with
  | none => none
  | some e => lookup e locale

/-- Variant record as stored in the JSON document (`v_rec`). -/
structure VariantRec where
  index : Nat
  seasons : List String
  default_season : String
  preview : String
deriving DecidableEq

/-- Model record as stored in the JSON document (`m_rec`), with its variant dict. -/
structure ModelRec where
  name : String
  filepath : String
  md5 : String
  preview : String
  default_variant : String
  variants : List (String × VariantRec)
deriving DecidableEq

/-- The `info` block's SDK version fields (informational only). -/
structure SdkInfo where
  sdk_version : String
  sdk_major : Nat
  sdk_minor : Nat
  sdk_micro : Nat
deriving DecidableEq

/-- The persisted JSON document: `info` (with `schema_version`), `labels`, `models`. -/
structure Document where
  schema_version : Int
  info_sdk : SdkInfo
  labels : LabelStore
  models : List (String × ModelRec)
deriving DecidableEq

/-- ThicketDB.get_label: return the `defaultLocale` translation of `key` when the
label store has an entry for `key` containing that locale, else `key` itself
(the `KeyError` path and the missing-locale path both return `key`). -/
def ThicketDB.get_label (labels : LabelStore) (key : String) (defaultLocale : String) : String :=
  match lookup labels key with
  | none => key
  | some entry =>
    match lookup entry defaultLocale with
    | some t => t
    | none => key

/-- ThicketDB.update_labels: `self._db["labels"].update(labels)`. -/
def ThicketDB.update_labels (store labels : LabelStore) : LabelStore :=
  dictUpdate store labels

/-- DBSeason view: a season name plus its resolved label. -/
structure DBSeason where
  name : String
  label : String
deriving DecidableEq

/-- DBVariant view materialized from a stored variant record. -/
structure DBVariant where
  name : String
  label : String
  seasons : List DBSeason
  default_season : DBSeason
  preview : String
deriving DecidableEq

/-- DBModel view materialized from a stored model record. -/
structure DBModel where
  name : String
  md5 : String
  filepath : String
  label : String
  preview : String
  variants : List DBVariant
  default_variant : DBVariant
deriving DecidableEq

/-- DBSeason constructor: `DBSeason(db, name)`. -/
def DBSeason.make (labels : LabelStore) (name : String) : DBSeason :=
  { name := name, label := ThicketDB.get_label labels name "en_US" }

/-- DBVariant constructor: `DBVariant(db, name, v_rec, model_preview)`; an empty
variant preview falls back to the model preview. -/
def DBVariant.make (labels : LabelStore) (name : String) (v : VariantRec)
    (model_preview : String) : DBVariant :=
  { name := name,
    label := ThicketDB.get_label labels name "en_US",
    seasons := v.seasons.map (DBSeason.make labels),
    default_season := DBSeason.make labels v.default_season,
    preview := if v.preview = "" then model_preview else v.preview }

/-- DBModel constructor: `DBModel(db, name)`.  Reading a missing model key, or a
`default_variant` that is not a key of the variant dict, raises `KeyError` in
Python; both are modelled as `none`. -/
def DBModel.make (d : Document) (name : String) : Option DBModel :=
  match lookup d.models name with
  | none => none
  | some m =>
    match lookup m.variants m.default_variant with
    | none => none
    | some dv =>
      some { name := name,
             md5 := m.md5,
             filepath := m.filepath,
             label := ThicketDB.get_label d.labels name "en_US",
             preview := m.preview,
             variants := m.variants.map (fun p => DBVariant.make d.labels p.1 p.2 m.preview),
             default_variant := DBVariant.make d.labels m.default_variant dv m.preview }

/-- DBVariant.get_season: the season named `name` when present among this
variant's seasons, otherwise the default season (also when `name` is `none`). -/
def DBVariant.get_season (v : DBVariant) (name : Option String) : DBSeason :=
  match name with
  | none => v.default_season
  | some n =>
    match v.seasons.find? (fun s => s.name = n) with
    | some s => s
    | none => v.default_season

/-- DBModel.get_variant: the variant named `name` when present among this
model's variants, otherwise the default variant (also when `name` is `none`). -/
def DBModel.get_variant (m : DBModel) (name : Option String) : DBVariant :=
  match name with
  | none => m.default_variant
  | some n =>
    match m.variants.find? (fun v => v.name = n) with
    | some v => v
    | none => m.default_variant

/-- Sequencing of the Python list comprehension in `DBIter.__init__`: stop at
the first element whose construction raises. -/
def mapOption {α β : Type} (f : α → Option β) : List α → Option (List β)
  | [] => some []
  | a :: rest =>
    match f a with
    | none => none
    | some b =>
      match mapOption f rest with
      | none => none
      | some bs => some (b :: bs)

/-- Sort order used by `DBIter`: `key=lambda model: model.name`. -/
def byName (a b : DBModel) : Prop := a.name ≤ b.name

instance : DecidableRel byName := fun a b => inferInstanceAs (Decidable (a.name ≤ b.name))

instance : IsTotal DBModel byName := ⟨fun a b => le_total a.name b.name⟩

instance : IsTrans DBModel byName := ⟨fun _ _ _ hab hbc => le_trans hab hbc⟩

/-- DBIter: materialize one DBModel view per stored model entry, then sort the
fresh list by model name ascending. -/
def dbIterModels (d : Document) : Option (List DBModel) :=
  (mapOption (fun p => DBModel.make d p.1) d.models).map (List.insertionSort byName)

/-- Per-entry well-formedness used by the views: the model key resolves and its
`default_variant` is a key of its variant dict. -/
def modelEntryOk (d : Document) (key : String) : Bool :=
  match lookup d.models key with
  | some m => (lookup m.variants m.default_variant).isSome
  | none => false

/-- All stored model entries are well-formed. -/
def docModelsOk (d : Document) : Bool :=
  d.models.all (fun p => modelEntryOk d p.1)

/-- Content of the database file at the opened path, as seen by `__init__`:
absent (`FileNotFoundError`), malformed (`json.load` raises
`JSONDecodeError`), or a parsed document. -/
inductive Stored where
  | absent
  | malformed
  | doc (d : Document)
deriving DecidableEq

/-- Signals `__init__` can propagate to the caller. -/
inductive OpenError where
  | oldSchema
  | notFound
deriving DecidableEq

/-- State of the constructed `ThicketDB` object: `loaded` is `self._db` when it
was assigned (`none` models the attribute never being set), and
`loggedCritical` records whether `logger.critical` ran. -/
structure DBHandle where
  loaded : Option Document
  loggedCritical : Bool
deriving DecidableEq

/-- ThicketDB.initialize: a fresh empty document at the current schema version. -/
def ThicketDB.initializeDoc (sdk : SdkInfo) : Document :=
  { schema_version := SCHEMA_VERSION, info_sdk := sdk, labels := [], models := [] }

/-- ThicketDB.__init__: parse the stored file if it exists and raise the
old-schema signal when its `schema_version` is `<` the current one; on a
missing file, create a fresh document when `create` is set, else propagate
`FileNotFoundError`; on malformed content, catch the `JSONDecodeError`, log it
at critical severity, and return with `self._db` never assigned. -/
def ThicketDB.init (s : Stored) (create : Bool) (sdk : SdkInfo) : Except OpenError DBHandle :=
  match s with
  | .doc d =>
    if d.schema_version < SCHEMA_VERSION then .error .oldSchema
    else .ok { loaded := some d, loggedCritical := false }
  | .absent =>
    if create then .ok { loaded := some (ThicketDB.initializeDoc sdk), loggedCritical := false }
    else .error .notFound
  | .malformed => .ok { loaded := none, loggedCritical := true }

/-- ThicketDB.save: `json.dump` of the in-memory document; serialization of a
well-formed document is modelled as the identity. -/
def ThicketDB.save (d : Document) : Stored :=
  Stored.doc d

/-- Python truthiness of an optional string argument (`if name:`). -/
def truthy : Option String → Bool
  | none => false
  | some s => !(s == "")

/-- The filepath scan in `get_model`: `for n in models: if ... : name = n`
keeps the last matching key. -/
def lastFilepathMatch (models : List (String × ModelRec)) (fp : String) : Option String :=
  models.foldl (fun acc p => if p.2.filepath = fp then some p.1 else acc) none

/-- ThicketDB.get_model: a truthy `name` not present in the model dict is
cleared; a filepath scan runs only when `name` ended up `None` and `filepath`
is truthy; a truthy final name yields the DBModel view, else `None`. -/
def ThicketDB.get_model (d : Document) (filepath name : Option String) : Option DBModel :=
  let name1 : Option String :=
    if truthy name then (if containsKey d.models (name.getD "") then name else none)
    else name
  let name2 : Option String :=
    if name1.isNone && truthy filepath then lastFilepathMatch d.models (filepath.getD "")
    else name1
  if truthy name2 then DBModel.make d (name2.getD "") else none

/-- ThicketDB.model_count. -/
def ThicketDB.model_count (d : Document) : Nat :=
  d.models.length

/-- Observation helper for `get_model`: the supplied name argument matches no
stored entry (also when no name is supplied). -/
def matchesNoName (d : Document) : Option String → Bool
  | none => true
  | some s => !(containsKey d.models s)

/-- Observation helper for `get_model`: the supplied filepath argument matches
no stored entry (also when no filepath is supplied). -/
def matchesNoPath (d : Document) : Option String → Bool
  | none => true
  | some s => (lastFilepathMatch d.models s).isNone

/-- Worker output: the single JSON record a `parse_model` subprocess prints
(`m_rec["model"]` and `m_rec["labels"]`); `none` models output that
`json.loads` cannot decode (malformed or absent). -/
structure WorkerRec where
  model : ModelRec
  labels : LabelStore
deriving DecidableEq

/-- State of the `build` worker loop.  `model_files` is the pending stack with
its head popped next (`list.pop()` pops the back, so the enumerated list is
reversed on entry); `jobs` is the in-flight deque, head oldest; `lastF` is the
Python loop variable `f` (the most recently popped file); `errlog` records the
file names mentioned in `JSONDecodeError` log lines; `maxInFlight`, `spawned`
and `collected` instrument the loop for the concurrency and ordering claims. -/
structure BuildState where
  model_files : List String
  jobs : List String
  models : List (String × ModelRec)
  labels : LabelStore
  lastF : Option String
  errlog : List String
  maxInFlight : Nat
  spawned : List String
  collected : List String
deriving DecidableEq

/-- Inner spawning loop of `build`: while fewer than `cap` jobs are in flight
and files remain, pop a file and spawn a worker for it (appended at the back
of the deque). -/
def spawnAux (cap : Nat) : List String → BuildState → BuildState
  | [], st => { st with model_files := [] }
  | f :: rest, st =>
    if st.jobs.length < cap then
      spawnAux cap rest
        { st with
          model_files := rest,
          jobs := st.jobs ++ [f],
          lastF := some f,
          maxInFlight := max st.maxInFlight (st.jobs.length + 1),
          spawned := st.spawned ++ [f] }
    else { st with model_files := f :: rest }

/-- Top-up step of the worker loop. -/
def spawnJobs (cap : Nat) (st : BuildState) : BuildState :=
  spawnAux cap st.model_files st

/-- Collection step of `build`: pop the oldest in-flight job and decode its
output.  On success its model record is assigned under its name and its labels
merged; on a decode failure an error is logged naming the current value of the
loop variable `f` and the model is skipped.  Popping an empty deque raises
`IndexError` in Python, modelled as `none`. -/
def collectOldest (out : String → Option WorkerRec) (st : BuildState) : Option BuildState :=
  match st.jobs with
  | [] => none
  | j :: rest =>
    let st1 := { st with jobs := rest, collected := st.collected ++ [j] }
    match out j with
    | some r =>
      some { st1 with
             models := dictInsert st1.models r.model.name r.model,
             labels := ThicketDB.update_labels st1.labels r.labels }
    | none => some { st1 with errlog := st1.errlog ++ [st1.lastF.getD ""] }

/-- Outer worker loop of `build`, fuelled: while files are pending or jobs are
in flight, top up the in-flight set, then block on the oldest job. -/
def buildLoop (cap : Nat) (out : String → Option WorkerRec) :
    Nat → BuildState → Option BuildState
  | 0, _ => none
  | fuel + 1, st =>
    if st.model_files.isEmpty && st.jobs.isEmpty then some st
    else
      match collectOldest out (spawnJobs cap st) with
      | none => none
      | some st2 => buildLoop cap out fuel st2

/-- Initial loop state for an enumerated file list (reversed so that the head
is the next file `pop()` takes from the back of the Python list). -/
def initialState (enumerated : List String) : BuildState :=
  { model_files := enumerated.reverse, jobs := [], models := [], labels := [],
    lastF := none, errlog := [], maxInFlight := 0, spawned := [], collected := [] }

/-- ThicketDB.build: run the worker loop over the enumerated asset files with
concurrency cap `cap` (`os.cpu_count()`, or 4 when undetectable) and worker
behaviour `out`, starting from a freshly initialized document.  One unit of
fuel per file plus one for the final emptiness check is exactly enough. -/
def ThicketDB.build (cap : Nat) (out : String → Option WorkerRec)
    (enumerated : List String) : Option BuildState :=
  buildLoop cap out (enumerated.length + 1) (initialState enumerated)

/-- Fixture: an SDK version block. -/
def sdk0 : SdkInfo :=
  { sdk_version := "1.0.0", sdk_major := 1, sdk_minor := 0, sdk_micro := 0 }

/-- Fixture: a variant record with two seasons. -/
def vRec0 : VariantRec :=
  { index := 0, seasons := ["summer", "winter"], default_season := "summer", preview := "" }

/-- Fixture: a well-formed model record named `nm` at path `fp`. -/
def mkRec (nm fp : String) : ModelRec :=
  { name := nm, filepath := fp, md5 := "d41d8", preview := "",
    default_variant := "01adult", variants := [("01adult", vRec0)] }

/-- Fixture: an empty document at schema version 1 (older than current). -/
def doc1 : Document :=
  { schema_version := 1, info_sdk := sdk0, labels := [], models := [] }

/-- Fixture: an empty document at schema version 3 (newer than current). -/
def doc3 : Document :=
  { schema_version := 3, info_sdk := sdk0, labels := [], models := [] }

/-- Fixture: a current-schema document holding one model. -/
def docCur : Document :=
  { schema_version := SCHEMA_VERSION, info_sdk := sdk0,
    labels := [("Oak", [("en_US", "Oak tree")])],
    models := [("Oak", mkRec "Oak" "/lib/Oak.lbw.gz")] }

/-- Fixture: a label store whose entry for `k` has two locales. -/
def Lc : LabelStore :=
  [("k", [("en_US", "a"), ("de_DE", "b")]), ("noloc", [("fr_FR", "z")])]

/-- Fixture: a new label map whose entry for `k` has only the default locale. -/
def Nc : LabelStore :=
  [("k", [("en_US", "c")])]

/-- C1: opening ThicketDB on a file with malformed content does not propagate
the decode error: the `JSONDecodeError` is caught, logged at critical
severity, and the constructor returns normally — so, as stated (the error
propagates to the caller), the claim is false at this input. -/
theorem open_malformed_returns_ok_cex :
    ThicketDB.init Stored.malformed false sdk0 =
      Except.ok { loaded := none, loggedCritical := true } := rfl

/-- C1 (amended): on malformed stored content the decode error is caught inside
the constructor, logged at critical severity, and the constructor returns
normally with no document loaded (the object is unusable); no partial recovery
is attempted. -/
theorem open_malformed_logged_no_db (create : Bool) (sdk : SdkInfo) :
    ThicketDB.init Stored.malformed create sdk =
      Except.ok { loaded := none, loggedCritical := true } := rfl

/-- C2: a stored document whose `schema_version` (3) differs from the current
`SCHEMA_VERSION` (2) but is greater loads successfully, so "load succeeds only
if the versions are equal" is false at this input. -/
theorem schema_gate_newer_loads_cex :
    doc3.schema_version ≠ SCHEMA_VERSION ∧
    ThicketDB.init (Stored.doc doc3) false sdk0 =
      Except.ok { loaded := some doc3, loggedCritical := false } := by
  exact ⟨by decide, rfl⟩

/-- C2 (amended): opening a stored document raises the old-schema error exactly
when its `schema_version` is strictly less than the current `SCHEMA_VERSION`;
any version greater than or equal to the current one loads successfully and
returns the stored document. -/
theorem schema_gate_lt (d : Document) (create : Bool) (sdk : SdkInfo) :
    (d.schema_version < SCHEMA_VERSION →
      ThicketDB.init (Stored.doc d) create sdk = Except.error OpenError.oldSchema) ∧
    (SCHEMA_VERSION ≤ d.schema_version →
      ThicketDB.init (Stored.doc d) create sdk =
        Except.ok { loaded := some d, loggedCritical := false }) := by
  constructor
  · intro h
    simp [ThicketDB.init, h]
  · intro h
    simp [ThicketDB.init, not_lt.mpr h]

/-- Witness for the amended C2 at schema versions 1 and 2. -/
theorem schema_gate_lt_witness :
    ThicketDB.init (Stored.doc doc1) false sdk0 = Except.error OpenError.oldSchema ∧
    ThicketDB.init (Stored.doc docCur) false sdk0 =
      Except.ok { loaded := some docCur, loggedCritical := false } :=
  ⟨(schema_gate_lt doc1 false sdk0).1 (by decide),
   (schema_gate_lt docCur false sdk0).2 (by decide)⟩

/-- C6: saving a valid in-memory document (current schema version) and opening
a ThicketDB on the result yields exactly the saved document back — the same
models, the same label store, and the same schema version. -/
theorem save_open_roundtrip (d : Document) (create : Bool) (sdk : SdkInfo)
    (h : d.schema_version = SCHEMA_VERSION) :
    ThicketDB.init (ThicketDB.save d) create sdk =
      Except.ok { loaded := some d, loggedCritical := false } := by
  simp [ThicketDB.save, ThicketDB.init, h]

/-- Witness for C6 at a concrete current-schema document. -/
theorem save_open_roundtrip_witness :
    ThicketDB.init (ThicketDB.save docCur) false sdk0 =
      Except.ok { loaded := some docCur, loggedCritical := false } :=
  save_open_roundtrip docCur false sdk0 rfl

/-- C7: `get_label` returns the stored default-locale (`en_US`) translation
when the store has an entry for the key containing that locale, and returns
the key itself verbatim otherwise (key absent entirely, or present without the
default locale); being a total function it never raises. -/
theorem get_label_spec (labels : LabelStore) (key : String) :
    (lookup labels key = none → ThicketDB.get_label labels key "en_US" = key) ∧
    (∀ e, lookup labels key = some e → lookup e "en_US" = none →
      ThicketDB.get_label labels key "en_US" = key) ∧
    (∀ e t, lookup labels key = some e → lookup e "en_US" = some t →
      ThicketDB.get_label labels key "en_US" = t) := by
  refine ⟨fun h => ?_, fun e h1 h2 => ?_, fun e t h1 h2 => ?_⟩
  · simp [ThicketDB.get_label, h]
  · simp [ThicketDB.get_label, h1, h2]
  · simp [ThicketDB.get_label, h1, h2]

/-- Witness for C7: all three fallback cases at concrete stores. -/
theorem get_label_spec_witness :
    ThicketDB.get_label Lc "missing" "en_US" = "missing" ∧
    ThicketDB.get_label Lc "noloc" "en_US" = "noloc" ∧
    ThicketDB.get_label Lc "k" "en_US" = "a" :=
  ⟨(get_label_spec Lc "missing").1 (by decide),
   (get_label_spec Lc "noloc").2.1 [("fr_FR", "z")] (by decide) (by decide),
   (get_label_spec Lc "k").2.2 [("en_US", "a"), ("de_DE", "b")] "a" (by decide) (by decide)⟩

theorem lookup_dictInsert_self {α : Type} (l : List (String × α)) (k : String) (v : α) :
    lookup (dictInsert l k v) k = some v := by
  induction l with
  | nil => simp [dictInsert, lookup]
  | cons p rest ih =>
    obtain ⟨a, b⟩ := p
    by_cases h : a = k
    · subst h
      simp [dictInsert, lookup]
    · simp [dictInsert, lookup, h, ih]

theorem lookup_dictInsert_ne {α : Type} (l : List (String × α)) (k q : String) (v : α)
    (hne : k ≠ q) : lookup (dictInsert l k v) q = lookup l q := by
  induction l with
  | nil => simp [dictInsert, lookup, hne]
  | cons p rest ih =>
    obtain ⟨a, b⟩ := p
    by_cases hq : a = q
    · subst hq
      have hk : ¬ a = k := fun e => hne e.symm
      simp [dictInsert, lookup, hk]
    · by_cases h : a = k
      · subst h
        simp [dictInsert, lookup, hq]
      · simp [dictInsert, lookup, h, hq, ih]

theorem dictUpdate_cons {α : Type} (d : List (String × α)) (p : String × α)
    (rest : List (String × α)) :
    dictUpdate d (p :: rest) = dictUpdate (dictInsert d p.1 p.2) rest := rfl

theorem lookup_dictUpdate_not_mem {α : Type} (n : List (String × α)) (d : List (String × α))
    (k : String) (h : lookup n k = none) : lookup (dictUpdate d n) k = lookup d k := by
  induction n generalizing d with
  | nil => rfl
  | cons p rest ih =>
    obtain ⟨a, b⟩ := p
    have ha : ¬ a = k := by
      intro e
      simp [lookup, e] at h
    have hr : lookup rest k = none := by
      simpa [lookup, ha] using h
    rw [dictUpdate_cons, ih _ hr, lookup_dictInsert_ne _ _ _ _ ha]

theorem lookup_eq_none_of_not_mem_keys {α : Type} (l : List (String × α)) (k : String)
    (h : k ∉ l.map Prod.fst) : lookup l k = none := by
  induction l with
  | nil => rfl
  | cons p rest ih =>
    obtain ⟨a, b⟩ := p
    simp only [List.map_cons, List.mem_cons, not_or] at h
    obtain ⟨h1, h2⟩ := h
    have : ¬ a = k := fun e => h1 e.symm
    simp [lookup, this, ih h2]

theorem lookup_dictUpdate_mem {α : Type} (n : List (String × α)) (d : List (String × α))
    (k : String) (v : α) (hnd : (n.map Prod.fst).Nodup) (h : lookup n k = some v) :
    lookup (dictUpdate d n) k = some v := by
  induction n generalizing d with
  | nil => simp [lookup] at h
  | cons p rest ih =>
    obtain ⟨a, b⟩ := p
    rw [List.map_cons] at hnd
    obtain ⟨hna, hndr⟩ := List.nodup_cons.mp hnd
    by_cases ha : a = k
    · subst ha
      have hv : b = v := by simpa [lookup] using h
      have hrest : lookup rest a = none :=
        lookup_eq_none_of_not_mem_keys rest a hna
      rw [dictUpdate_cons, lookup_dictUpdate_not_mem rest _ a hrest,
        lookup_dictInsert_self, hv]
    · have h' : lookup rest k = some v := by simpa [lookup, ha] using h
      rw [dictUpdate_cons]
      exact ih (dictInsert d a b) hndr h'

/-- C3: merging `Nc` into `Lc` with `update_labels` loses the `de_DE`
translation that only `Lc` had for the shared key `k` — the per-key entry is
replaced wholesale, so the claim that locales present only in L's entry are
preserved is false at this input. -/
theorem update_labels_locale_lost_cex :
    localeOf Lc "k" "de_DE" = some "b" ∧
    localeOf Nc "k" "de_DE" = none ∧
    containsKey Nc "k" = true ∧
    localeOf (ThicketDB.update_labels Lc Nc) "k" "de_DE" = none := by
  decide

/-- C3 (amended): `update_labels` is a per-key shallow overwrite: for any key
present in the new label map (with the usual unique dict keys), the merged
entry is exactly the new map's entry for that key — locales present only in
the old entry are discarded — and every key absent from the new map keeps its
old entire entry unchanged. -/
theorem update_labels_per_key (L N : LabelStore) (k : String) :
    (containsKey N k = false →
      lookup (ThicketDB.update_labels L N) k = lookup L k) ∧
    ((N.map Prod.fst).Nodup → containsKey N k = true →
      lookup (ThicketDB.update_labels L N) k = lookup N k) := by
  constructor
  · intro h
    have hn : lookup N k = none := by
      cases hh : lookup N k with
      | none => rfl
      | some v => simp [containsKey, hh] at h
    exact lookup_dictUpdate_not_mem N L k hn
  · intro hnd h
    obtain ⟨v, hv⟩ : ∃ v, lookup N k = some v := by
      cases hh : lookup N k with
      | none => simp [containsKey, hh] at h
      | some v => exact ⟨v, rfl⟩
    rw [hv]
    exact lookup_dictUpdate_mem N L k v hnd hv

/-- Witness for the amended C3 at the concrete stores. -/
theorem update_labels_per_key_witness :
    lookup (ThicketDB.update_labels Lc Nc) "noloc" = lookup Lc "noloc" ∧
    lookup (ThicketDB.update_labels Lc Nc) "k" = lookup Nc "k" :=
  ⟨(update_labels_per_key Lc Nc "noloc").1 (by decide),
   (update_labels_per_key Lc Nc "k").2 (by decide) (by decide)⟩

theorem make_of_entryOk (d : Document) (k : String) (h : modelEntryOk d k = true) :
    ∃ m, DBModel.make d k = some m ∧ m.name = k := by
  unfold modelEntryOk at h
  cases hm : lookup d.models k with
  | none => rw [hm] at h; simp at h
  | some mr =>
    rw [hm] at h
    obtain ⟨dv, hdv⟩ : ∃ a, lookup mr.variants mr.default_variant = some a := by
      simpa [Option.isSome_iff_exists] using h
    refine ⟨{ name := k, md5 := mr.md5, filepath := mr.filepath,
              label := ThicketDB.get_label d.labels k "en_US", preview := mr.preview,
              variants := mr.variants.map (fun p => DBVariant.make d.labels p.1 p.2 mr.preview),
              default_variant := DBVariant.make d.labels mr.default_variant dv mr.preview },
            ?_, rfl⟩
    simp [DBModel.make, hm, hdv]

/-- Observation helper for `get_model`: the local variable `name` is `None`
after the first step — no name was supplied, or the supplied (truthy) name is
not a stored key; a supplied empty-string name is falsy and stays `""`. -/
def nameCleared (d : Document) : Option String → Bool
  | none => true
  | some s => !(s == "") && !(containsKey d.models s)

theorem lastFilepathMatch_mem_aux (fp : String) :
    ∀ (ms : List (String × ModelRec)) (acc : Option String) (k : String),
    ms.foldl (fun acc p => if p.2.filepath = fp then some p.1 else acc) acc = some k →
    (∃ mr, (k, mr) ∈ ms ∧ mr.filepath = fp) ∨ acc = some k := by
  intro ms
  induction ms with
  | nil => exact fun acc k h => Or.inr h
  | cons p rest ih =>
    intro acc k h
    rw [List.foldl_cons] at h
    rcases ih (if p.2.filepath = fp then some p.1 else acc) k h with hex | hacc
    · obtain ⟨mr, hmem, hfp⟩ := hex
      exact Or.inl ⟨mr, List.mem_cons_of_mem p hmem, hfp⟩
    · by_cases hp : p.2.filepath = fp
      · rw [if_pos hp] at hacc
        have hk := Option.some.inj hacc
        refine Or.inl ⟨p.2, ?_, hp⟩
        rw [← hk]
        simp
      · rw [if_neg hp] at hacc
        exact Or.inr hacc

theorem lastFilepathMatch_mem (ms : List (String × ModelRec)) (fp k : String)
    (h : lastFilepathMatch ms fp = some k) :
    ∃ mr, (k, mr) ∈ ms ∧ mr.filepath = fp := by
  unfold lastFilepathMatch at h
  rcases lastFilepathMatch_mem_aux fp ms none k h with hex | hacc
  · exact hex
  · exact Option.noConfusion hacc

/-- C9: `get_model` looks up by exact name or by exact filepath: a supplied
name that is a stored key wins regardless of the filepath argument; when the
name argument ends up cleared (absent, or supplied but not a stored key) and
the supplied filepath is the exact `filepath` field of a stored entry, the
scan returns the model keyed by the (last) matching entry; and when no stored
entry matches either supplied argument the result is the absence signal
`none`, not an error. -/
theorem get_model_spec (d : Document) :
    (∀ (n : String) (fp : Option String),
      truthy (some n) = true → containsKey d.models n = true → modelEntryOk d n = true →
      ∃ m, ThicketDB.get_model d fp (some n) = some m ∧ m.name = n) ∧
    (∀ (s k : String) (nm : Option String),
      nameCleared d nm = true → s ≠ "" → k ≠ "" →
      lastFilepathMatch d.models s = some k → modelEntryOk d k = true →
      ∃ m, ThicketDB.get_model d (some s) nm = some m ∧ m.name = k ∧
        ∃ mr, (k, mr) ∈ d.models ∧ mr.filepath = s) ∧
    (∀ (fp nm : Option String),
      matchesNoName d nm = true → matchesNoPath d fp = true →
      ThicketDB.get_model d fp nm = none) := by
  refine ⟨?_, ?_, ?_⟩
  · intro n fp ht hc hok
    obtain ⟨m, hm, hname⟩ := make_of_entryOk d n hok
    refine ⟨m, ?_, hname⟩
    simp [ThicketDB.get_model, ht, hc, hm]
  · intro s k nm hnc hs hkne hmatch hok
    obtain ⟨m, hm, hname⟩ := make_of_entryOk d k hok
    refine ⟨m, ?_, hname, lastFilepathMatch_mem d.models s k hmatch⟩
    cases nm with
    | none => simp [ThicketDB.get_model, truthy, hs, hkne, hmatch, hm]
    | some s2 =>
      have hnc2 : ¬s2 = "" ∧ containsKey d.models s2 = false := by
        simpa [nameCleared] using hnc
      simp [ThicketDB.get_model, truthy, hs, hkne, hmatch, hm, hnc2.1, hnc2.2]
  · intro fp nm h1 h2
    cases nm with
    | none =>
      cases fp with
      | none => simp [ThicketDB.get_model, truthy]
      | some s =>
        by_cases hs : s = ""
        · subst hs
          simp [ThicketDB.get_model, truthy]
        · have hmatch : lastFilepathMatch d.models s = none := by
            simp only [matchesNoPath, Option.isNone_iff_eq_none] at h2
            exact h2
          simp [ThicketDB.get_model, truthy, hs, hmatch]
    | some s =>
      by_cases hs : s = ""
      · subst hs
        simp [ThicketDB.get_model, truthy]
      · have hcon : containsKey d.models s = false := by
          simp only [matchesNoName, Bool.not_eq_true'] at h1
          exact h1
        cases fp with
        | none => simp [ThicketDB.get_model, truthy, hs, hcon]
        | some t =>
          by_cases hts : t = ""
          · subst hts
            simp [ThicketDB.get_model, truthy, hs, hcon]
          · have hmatch : lastFilepathMatch d.models t = none := by
              simp only [matchesNoPath, Option.isNone_iff_eq_none] at h2
              exact h2
            simp [ThicketDB.get_model, truthy, hs, hcon, hts, hmatch]

/-- Witness for C9: a name hit with a filepath also supplied, a filepath hit
with no name supplied, and a full miss. -/
theorem get_model_spec_witness :
    (∃ m, ThicketDB.get_model docCur (some "/other/path") (some "Oak") = some m ∧
      m.name = "Oak") ∧
    (∃ m, ThicketDB.get_model docCur (some "/lib/Oak.lbw.gz") none = some m ∧
      m.name = "Oak" ∧ ∃ mr, ("Oak", mr) ∈ docCur.models ∧
        mr.filepath = "/lib/Oak.lbw.gz") ∧
    ThicketDB.get_model docCur (some "/no/such/path") (some "Pine") = none :=
  ⟨(get_model_spec docCur).1 "Oak" (some "/other/path") (by decide) (by decide) (by decide),
   (get_model_spec docCur).2.1 "/lib/Oak.lbw.gz" "Oak" none (by decide) (by decide)
     (by decide) (by decide) (by decide),
   (get_model_spec docCur).2.2 (some "/no/such/path") (some "Pine") (by decide) (by decide)⟩

theorem find?_of_any_eq_true {α : Type} (p : α → Bool) (l : List α) (h : l.any p = true) :
    ∃ x, l.find? p = some x ∧ p x = true ∧ x ∈ l := by
  induction l with
  | nil => simp at h
  | cons a rest ih =>
    by_cases ha : p a = true
    · exact ⟨a, by simp [List.find?, ha], ha, List.mem_cons_self a rest⟩
    · have h' : rest.any p = true := by
        simpa [List.any_cons, ha] using h
      obtain ⟨x, hf, hp, hm⟩ := ih h'
      exact ⟨x, by simp [List.find?, ha, hf], hp, List.mem_cons_of_mem a hm⟩

theorem find?_eq_none_of_any_eq_false {α : Type} (p : α → Bool) (l : List α)
    (h : l.any p = false) : l.find? p = none := by
  induction l with
  | nil => rfl
  | cons a rest ih =>
    by_cases ha : p a = true
    · simp [List.any_cons, ha] at h
    · have h' : rest.any p = false := by
        simpa [List.any_cons, ha] using h
      simp [List.find?, ha, ih h']

/-- Fixture: season views. -/
def seasonSummer : DBSeason := { name := "summer", label := "summer" }

/-- Fixture: a second season view. -/
def seasonWinter : DBSeason := { name := "winter", label := "winter" }

/-- Fixture: a variant view with two seasons. -/
def variantYoung : DBVariant :=
  { name := "01young", label := "01young", seasons := [seasonSummer, seasonWinter],
    default_season := seasonSummer, preview := "" }

/-- Fixture: another variant view with two seasons. -/
def variantAdult : DBVariant :=
  { name := "01adult", label := "01adult", seasons := [seasonSummer, seasonWinter],
    default_season := seasonSummer, preview := "" }

/-- Fixture: a model view with two variants, the adult one being the default. -/
def modelOak : DBModel :=
  { name := "Oak", md5 := "d41d8", filepath := "/lib/Oak.lbw.gz", label := "Oak",
    preview := "", variants := [variantYoung, variantAdult],
    default_variant := variantAdult }

/-- C10: `get_variant` returns a variant named `s` when one exists among the
model's variants and otherwise silently returns the default variant (always a
variant, never an error or absence signal); likewise `get_season` returns the
season named `s` when present and otherwise the default season. -/
theorem get_variant_get_season_spec (m : DBModel) (v : DBVariant) (s : String) :
    ((m.variants.any fun w => w.name = s) = true →
      (m.get_variant (some s)).name = s ∧ m.get_variant (some s) ∈ m.variants) ∧
    ((m.variants.any fun w => w.name = s) = false →
      m.get_variant (some s) = m.default_variant) ∧
    ((v.seasons.any fun t => t.name = s) = true →
      (v.get_season (some s)).name = s ∧ v.get_season (some s) ∈ v.seasons) ∧
    ((v.seasons.any fun t => t.name = s) = false →
      v.get_season (some s) = v.default_season) := by
  refine ⟨fun h => ?_, fun h => ?_, fun h => ?_, fun h => ?_⟩
  · obtain ⟨w, hf, hp, hm⟩ := find?_of_any_eq_true _ _ h
    have : m.get_variant (some s) = w := by simp [DBModel.get_variant, hf]
    rw [this]
    exact ⟨of_decide_eq_true hp, hm⟩
  · have hf := find?_eq_none_of_any_eq_false _ _ h
    simp [DBModel.get_variant, hf]
  · obtain ⟨w, hf, hp, hm⟩ := find?_of_any_eq_true _ _ h
    have : v.get_season (some s) = w := by simp [DBVariant.get_season, hf]
    rw [this]
    exact ⟨of_decide_eq_true hp, hm⟩
  · have hf := find?_eq_none_of_any_eq_false _ _ h
    simp [DBVariant.get_season, hf]

/-- Witness for C10: both the found and the fallback branches for variants and
seasons, at concrete views. -/
theorem get_variant_get_season_spec_witness :
    ((modelOak.get_variant (some "01young")).name = "01young" ∧
      modelOak.get_variant (some "01young") ∈ modelOak.variants) ∧
    modelOak.get_variant (some "bogus") = modelOak.default_variant ∧
    ((variantAdult.get_season (some "winter")).name = "winter" ∧
      variantAdult.get_season (some "winter") ∈ variantAdult.seasons) ∧
    variantAdult.get_season (some "bogus") = variantAdult.default_season :=
  ⟨(get_variant_get_season_spec modelOak variantAdult "01young").1 (by decide),
   (get_variant_get_season_spec modelOak variantAdult "bogus").2.1 (by decide),
   (get_variant_get_season_spec modelOak variantAdult "winter").2.2.1 (by decide),
   (get_variant_get_season_spec modelOak variantAdult "bogus").2.2.2 (by decide)⟩

theorem mapOption_models (d : Document) :
    ∀ ms : List (String × ModelRec),
    (∀ p ∈ ms, modelEntryOk d p.1 = true) →
    ∃ vs, mapOption (fun p => DBModel.make d p.1) ms = some vs ∧
      vs.map DBModel.name = ms.map Prod.fst := by
  intro ms
  induction ms with
  | nil => exact fun _ => ⟨[], rfl, rfl⟩
  | cons p rest ih =>
    intro h
    obtain ⟨m, hm, hname⟩ := make_of_entryOk d p.1 (h p (List.mem_cons_self p rest))
    obtain ⟨vs, hvs, hmap⟩ := ih (fun q hq => h q (List.mem_cons_of_mem p hq))
    refine ⟨m :: vs, ?_, ?_⟩
    · simp [mapOption, hm, hvs]
    · simp [hmap, hname]

/-- C8: on a well-formed document, iteration yields exactly one model view per
stored model entry — the multiset of view names equals the multiset of stored
keys — sorted by model name in ascending order.  The sequence is a finite list
freshly computed from the document by a pure function, so iterating twice from
the start yields the same sequence (no shared exhausted cursor). -/
theorem iter_sorted_complete (d : Document) (h : docModelsOk d = true) :
    ∃ l, dbIterModels d = some l ∧ List.Sorted byName l ∧
      List.Perm (l.map DBModel.name) (d.models.map Prod.fst) := by
  have hall : ∀ p ∈ d.models, modelEntryOk d p.1 = true := by
    unfold docModelsOk at h
    intro p hp
    exact List.all_eq_true.mp h p hp
  obtain ⟨vs, hvs, hmap⟩ := mapOption_models d d.models hall
  refine ⟨List.insertionSort byName vs, ?_, ?_, ?_⟩
  · simp [dbIterModels, hvs]
  · exact List.sorted_insertionSort byName vs
  · have hperm := (List.perm_insertionSort byName vs).map DBModel.name
    rw [hmap] at hperm
    exact hperm

/-- Fixture: a current-schema document with three models in unsorted key order. -/
def zamDoc : Document :=
  { schema_version := SCHEMA_VERSION, info_sdk := sdk0, labels := [],
    models := [("Zebrawood", mkRec "Zebrawood" "/lib/Z.lbw.gz"),
               ("Acacia", mkRec "Acacia" "/lib/A.lbw.gz"),
               ("Maple", mkRec "Maple" "/lib/M.lbw.gz")] }

/-- Witness for C8 at a concrete three-model document. -/
theorem iter_sorted_complete_witness :
    docModelsOk zamDoc = true ∧
    ∃ l, dbIterModels zamDoc = some l ∧ List.Sorted byName l ∧
      List.Perm (l.map DBModel.name) (zamDoc.models.map Prod.fst) :=
  ⟨by decide, iter_sorted_complete zamDoc (by decide)⟩

theorem spawnAux_spec (cap : Nat) :
    ∀ (files : List String) (st : BuildState),
    ∃ xs : List String,
      (spawnAux cap files st).jobs = st.jobs ++ xs ∧
      (spawnAux cap files st).spawned = st.spawned ++ xs ∧
      (spawnAux cap files st).collected = st.collected ∧
      (spawnAux cap files st).model_files.length + (spawnAux cap files st).jobs.length
        = files.length + st.jobs.length ∧
      (st.jobs.length ≤ cap → (spawnAux cap files st).jobs.length ≤ cap) ∧
      (st.maxInFlight ≤ cap → (spawnAux cap files st).maxInFlight ≤ cap) ∧
      (1 ≤ cap → (files ≠ [] ∨ 1 ≤ st.jobs.length) →
        1 ≤ (spawnAux cap files st).jobs.length) := by
  intro files
  induction files with
  | nil =>
    intro st
    refine ⟨[], by simp [spawnAux], by simp [spawnAux], by simp [spawnAux],
      by simp [spawnAux], fun h => by simpa [spawnAux] using h,
      fun h => by simpa [spawnAux] using h, fun _ hd => ?_⟩
    simp only [spawnAux]
    rcases hd with hd | hd
    · exact absurd rfl hd
    · exact hd
  | cons f rest ih =>
    intro st
    by_cases hlt : st.jobs.length < cap
    · obtain ⟨xs, hj, hs, hc, hsum, hcapb, hmaxb, hposb⟩ :=
        ih { st with
             model_files := rest,
             jobs := st.jobs ++ [f],
             lastF := some f,
             maxInFlight := max st.maxInFlight (st.jobs.length + 1),
             spawned := st.spawned ++ [f] }
      have hstep : spawnAux cap (f :: rest) st =
          spawnAux cap rest
            { st with
              model_files := rest,
              jobs := st.jobs ++ [f],
              lastF := some f,
              maxInFlight := max st.maxInFlight (st.jobs.length + 1),
              spawned := st.spawned ++ [f] } := by
        simp [spawnAux, hlt]
      rw [hstep]
      refine ⟨f :: xs, ?_, ?_, ?_, ?_, ?_, ?_, ?_⟩
      · rw [hj]; simp
      · rw [hs]; simp
      · rw [hc]
      · rw [hsum]; simp; omega
      · intro hle
        refine hcapb ?_
        simp
        omega
      · intro hm
        refine hmaxb ?_
        simp only []
        exact Nat.max_le.mpr ⟨hm, hlt⟩
      · intro hcap hd
        refine hposb hcap (Or.inr ?_)
        simp
    · have hstep : spawnAux cap (f :: rest) st = { st with model_files := f :: rest } := by
        simp [spawnAux, hlt]
      rw [hstep]
      refine ⟨[], by simp, by simp, rfl, by simp, fun h => by simpa using h,
        fun h => by simpa using h, fun hcap hd => ?_⟩
      simp only []
      omega

theorem collectOldest_spec (out : String → Option WorkerRec) (st : BuildState)
    (j : String) (rest : List String) (h : st.jobs = j :: rest) :
    ∃ st2, collectOldest out st = some st2 ∧
      st2.jobs = rest ∧ st2.model_files = st.model_files ∧
      st2.maxInFlight = st.maxInFlight ∧ st2.collected = st.collected ++ [j] ∧
      st2.spawned = st.spawned := by
  cases ho : out j with
  | some r =>
    exact ⟨{ st with
             jobs := rest,
             collected := st.collected ++ [j],
             models := dictInsert st.models r.model.name r.model,
             labels := ThicketDB.update_labels st.labels r.labels },
           by simp [collectOldest, h, ho], rfl, rfl, rfl, rfl, rfl⟩
  | none =>
    exact ⟨{ st with
             jobs := rest,
             collected := st.collected ++ [j],
             errlog := st.errlog ++ [st.lastF.getD ""] },
           by simp [collectOldest, h, ho], rfl, rfl, rfl, rfl, rfl⟩

theorem buildLoop_total (cap : Nat) (out : String → Option WorkerRec) (hcap : 1 ≤ cap) :
    ∀ (fuel : Nat) (st : BuildState),
    st.model_files.length + st.jobs.length < fuel →
    st.jobs.length ≤ cap → st.maxInFlight ≤ cap →
    st.spawned = st.collected ++ st.jobs →
    ∃ st', buildLoop cap out fuel st = some st' ∧
      st'.maxInFlight ≤ cap ∧ st'.spawned = st'.collected ∧
      st'.model_files = [] ∧ st'.jobs = [] := by
  intro fuel
  induction fuel with
  | zero => intro st hlt; omega
  | succ fuel ih =>
    intro st hfuel hjobs hmax hfifo
    by_cases hdone : st.model_files.isEmpty && st.jobs.isEmpty
    · have hab : st.model_files = [] ∧ st.jobs = [] := by
        simpa using hdone
      obtain ⟨h1, h2⟩ := hab
      refine ⟨st, ?_, hmax, ?_, h1, h2⟩
      · simp [buildLoop, hdone]
      · simpa [h2] using hfifo
    · obtain ⟨xs, hj, hs, hc, hsum, hcapb, hmaxb, hposf⟩ :=
        spawnAux_spec cap st.model_files st
      set st1 := spawnAux cap st.model_files st with hst1
      have hne : st.model_files ≠ [] ∨ 1 ≤ st.jobs.length := by
        by_cases hf : st.model_files = []
        · right
          have hj' : st.jobs ≠ [] := by
            intro hjn
            exact hdone (by simp [hf, hjn])
          exact List.length_pos.mpr hj'
        · left; exact hf
      have hpos := hposf hcap hne
      obtain ⟨j, rest, hjr⟩ : ∃ j rest, st1.jobs = j :: rest := by
        cases hh : st1.jobs with
        | nil => rw [hh] at hpos; simp at hpos
        | cons a b => exact ⟨a, b, rfl⟩
      obtain ⟨st2, hcol, h2j, h2f, h2m, h2c, h2s⟩ := collectOldest_spec out st1 j rest hjr
      have hlen1 : st1.jobs.length = rest.length + 1 := by
        rw [hjr]; simp
      have hsum2 : st2.model_files.length + st2.jobs.length < fuel := by
        rw [h2f, h2j]
        omega
      have hjobs2 : st2.jobs.length ≤ cap := by
        have := hcapb hjobs
        rw [h2j]
        omega
      have hmax2 : st2.maxInFlight ≤ cap := by
        rw [h2m]
        exact hmaxb hmax
      have hfifo2 : st2.spawned = st2.collected ++ st2.jobs := by
        have hst1fifo : st1.spawned = st1.collected ++ st1.jobs := by
          rw [hs, hc, hj, hfifo]
          simp
        rw [h2s, h2c, h2j, hst1fifo, hjr]
        simp
      obtain ⟨st', hloop, hp1, hp2, hp3, hp4⟩ := ih st2 hsum2 hjobs2 hmax2 hfifo2
      refine ⟨st', ?_, hp1, hp2, hp3, hp4⟩
      have hunfold : buildLoop cap out (fuel + 1) st = buildLoop cap out fuel st2 := by
        simp only [buildLoop, spawnJobs]
        rw [if_neg hdone, ← hst1, hcol]
      rw [hunfold]
      exact hloop

/-- C5: for every run of `build` with concurrency cap `cap ≥ 1` (the value of
`os.cpu_count()`, or the fallback constant 4, is always ≥ 1), the run
completes, the number of spawned, not-yet-collected workers never exceeds
`cap` at any point of the worker loop (`maxInFlight` records the running
maximum of the in-flight set's size), and workers are collected in strict
FIFO spawn order (`collected` equals `spawned`). -/
theorem build_bounded_fifo (cap : Nat) (out : String → Option WorkerRec)
    (enumerated : List String) (hcap : 1 ≤ cap) :
    ∃ st, ThicketDB.build cap out enumerated = some st ∧
      st.maxInFlight ≤ cap ∧ st.collected = st.spawned ∧
      st.model_files = [] ∧ st.jobs = [] := by
  obtain ⟨st', h1, h2, h3, h4, h5⟩ :=
    buildLoop_total cap out hcap (enumerated.length + 1) (initialState enumerated)
      (by simp [initialState]) (by simp [initialState]) (by simp [initialState])
      (by simp [initialState])
  exact ⟨st', h1, h2, h3.symm, h4, h5⟩

/-- Witness for C5: cap 1 over two files whose parses both fail to decode. -/
theorem build_bounded_fifo_witness :
    ∃ st, ThicketDB.build 1 (fun _ => none) ["f1", "f2"] = some st ∧
      st.maxInFlight ≤ 1 ∧ st.collected = st.spawned ∧
      st.model_files = [] ∧ st.jobs = [] :=
  build_bounded_fifo 1 (fun _ => none) ["f1", "f2"] (by decide)

/-- Fixture: the successful worker's model record. -/
def recA : ModelRec := mkRec "A" "/lib/plants/a"

/-- Fixture: worker behaviour for a two-file batch in which the worker for
file "a" succeeds and the worker for file "b" emits undecodable output. -/
def outEx : String → Option WorkerRec :=
  fun f =>
    if f = "a" then some { model := recA, labels := [("A", [("en_US", "Plant A")])] }
    else none

/-- C4 evaluated at the failing input: over the enumerated batch ["a", "b"]
with cap 2, `pop()` spawns "b" first and "a" second (so the loop variable `f`
ends at "a"); the failed worker is the one for "b" (collected first), the
build completes with the N−1 = 1 surviving model, but the decode error is
logged naming "a" — the last-spawned file — not the failed file "b". -/
theorem build_misattributes_failed_file :
    outEx "b" = none ∧
    (ThicketDB.build 2 outEx ["a", "b"]).map
        (fun st => (st.models.map Prod.fst, st.errlog, st.collected)) =
      some (["A"], ["a"], ["b", "a"]) := by
  constructor
  · decide
  · decide
